import Mathlib

/-!
Verification of the conversation-context assembly core of `discord_sky`
(`src/discord_sky/context/conversation.py`).

The embedding below translates the Python source directly:

* `ContextMessage`, `ToolResult`, `ConversationContext` mirror the dataclasses.
* `Settings` keeps the configuration fields the core reads
  (`bot_prefix`, `bot_message_limit`, `chatgpt_prompt_prefix`,
  `chatgpt_prompt_suffix`).  `bot_message_limit` is a Python `int`, so it is
  modelled as `Int` (the configuration does not constrain its sign).
* `Builder` mirrors `ConversationContextBuilder`'s state
  (`_settings`, `_history_character_limit`, `_bot_user_id`).
* A raw Discord message is reduced to the attributes the core consumes:
  the author's `name`, `id` and `bot` flag, and an optional text `content`
  (`past_message.content or ""` is `contentOrEmpty`).
* The `async for past_message in message.channel.history(limit=...)` read is
  modelled by passing the yielded window directly: a finite list of
  `RawMessage`, newest first (its length is bounded by `bot_context` at the
  source, which is irrelevant to the curation algorithm itself).
* Python string operations are modelled over the code-point lists:
  `startsWithPy` is `str.startswith`, `hasSubstring` is the `in` operator,
  `lowerPy` stands for `str.lower`, and `joinWith` is `str.join`.
-/

/-- One entry of the structured message history (dataclass `ContextMessage`). -/
structure ContextMessage where
  author : String
  content : String
deriving DecidableEq, Repr

/-- A tool result bundled into the request (dataclass `ToolResult`). -/
structure ToolResult where
  name : String
  content : String
deriving DecidableEq, Repr

/-- The author attributes of a raw Discord message that the core consumes. -/
structure Author where
  name : String
  id : Nat
  bot : Bool
deriving DecidableEq, Repr

/-- A raw Discord message as consumed by `_collect_history`: its author and
its optional text content (`None` is possible, the code reads
`past_message.content or ""`). -/
structure RawMessage where
  author : Author
  content : Option String
deriving DecidableEq, Repr

/-- The configuration fields of `Settings` that the context core reads. -/
structure Settings where
  bot_prefix : String
  bot_message_limit : Int
  chatgpt_prompt_prefix : String
  chatgpt_prompt_suffix : String
deriving DecidableEq, Repr

/-- The state of `ConversationContextBuilder`: settings,
`_history_character_limit` and the optional `_bot_user_id`. -/
structure Builder where
  settings : Settings
  history_character_limit : Nat
  bot_user_id : Option Nat
deriving DecidableEq, Repr

/-- The payload container (dataclass `ConversationContext`). -/
structure ConversationContext where
  prompt_prefix : String
  middle_section : String
  prompt_suffix : String
  history : List ContextMessage
  tool_results : List ToolResult
deriving DecidableEq, Repr

/-- `BLOCK_SEPARATOR = " \n "`. -/
def BLOCK_SEPARATOR : String := " \n "

/-- `past_message.content or ""`. -/
def contentOrEmpty (m : RawMessage) : String := (RawMessage.content m).getD ""

/-- Python `content.startswith(p)`: code-point prefix test. -/
def startsWithPy (content p : String) : Bool :=
  List.isPrefixOf (String.data p) (String.data content)

/-- Python `needle in hay` on strings: substring containment over
code points. -/
def hasSubstring (needle : List Char) : List Char → Bool
  | [] => List.isPrefixOf needle []
  | c :: t => List.isPrefixOf needle (c :: t) || hasSubstring needle t

/-- Python `s.lower()`, modelled as the per-code-point lowercase map (the
same map the core library's string lowercasing performs). -/
def lowerPy (s : String) : String :=
  String.mk (List.map Char.toLower (String.data s))

/-- Python `sep.join(parts)`. -/
def joinWith (sep : String) : List String → String
  | [] => ""
  | [x] => x
  | x :: y :: rest => x ++ sep ++ joinWith sep (y :: rest)

/-- `_is_from_bot`: when no bot user id is bound, fall back to the author's
`bot` flag; otherwise compare author ids. -/
def isFromBot (botUserId : Option Nat) (m : RawMessage) : Bool :=
  match botUserId with
  | none => Author.bot (RawMessage.author m)
  | some uid => Author.id (RawMessage.author m) == uid

/-- The first loop of `_collect_history` keeps a past message as a history
candidate when it is not bot-authored and its content does not start with
the command prefix. -/
def keepHuman (botUserId : Option Nat) (pfx : String) (m : RawMessage) : Bool :=
  !isFromBot botUserId m && !startsWithPy (contentOrEmpty m) pfx

/-- `history_messages`: the non-bot, non-command messages of the window, in
iteration (newest-first) order. -/
def historyMessages (botUserId : Option Nat) (pfx : String)
    (window : List RawMessage) : List RawMessage :=
  List.filter (keepHuman botUserId pfx) window

/-- `bot_messages_content`: the contents of the bot-authored messages of the
window, in iteration (newest-first) order. -/
def botContents (botUserId : Option Nat) (window : List RawMessage) : List String :=
  List.map contentOrEmpty (List.filter (fun m => isFromBot botUserId m) window)

/-- The repetition test of `_collect_history`:
`f"{content_lower}\n" in bot_message.lower()`. -/
def lineMatch (contentLower : String) (botMsg : String) : Bool :=
  hasSubstring (String.data contentLower ++ ['\n']) (String.data (lowerPy botMsg))

/-- `bot_message_counts[key] += 1` on the counts table (Python dict with
default 0, modelled as a total function). -/
def bumpKey (key : String) (cs : String → Nat) : String → Nat :=
  fun c => if c = key then cs c + 1 else cs c

/-- The inner loop of the repetition pass: for each bot content that contains
`contentLower` followed by a line break, increment the count at `key`. -/
def bumpForBots (key contentLower : String) (bots : List String)
    (cs : String → Nat) : String → Nat :=
  List.foldl (fun acc b => if lineMatch contentLower b then bumpKey key acc else acc) cs bots

/-- One step of the repetition pass for one human message: contents whose
lowercase form is shorter than 5 characters are skipped (`continue`). -/
def countsStep (bots : List String) (cs : String → Nat) (m : RawMessage) : String → Nat :=
  let contentLower := lowerPy (contentOrEmpty m)
  if String.length contentLower < 5 then cs
  else bumpForBots (contentOrEmpty m) contentLower bots cs

/-- `bot_message_counts` after the repetition pass: every history message's
content starts at 0 (`setdefault`) and the pass above runs over the history
messages in order. -/
def botMessageCounts (hist : List RawMessage) (bots : List String) : String → Nat :=
  List.foldl (countsStep bots) (fun _ => 0) hist

/-- Membership in `ignored_contents`: the count of a content reached the
configured `bot_message_limit` (`count >= limit`).  During the budget walk
this is only queried at contents of history messages, whose keys are always
present in the dict, so the total-function model is exact. -/
def isExcluded (limit : Int) (hist : List RawMessage) (bots : List String)
    (c : String) : Bool :=
  decide (limit ≤ (botMessageCounts hist bots c : Int))

/-- `ContextMessage(author=past_message.author.name, content=content)`. -/
def entryOf (m : RawMessage) : ContextMessage :=
  ContextMessage.mk (Author.name (RawMessage.author m)) (contentOrEmpty m)

/-- The budget walk of `_collect_history`: skip ignored contents, add
`len(entry.author) + len(entry.content) + 2` to the running total, stop the
whole walk (`break`) as soon as the total exceeds the limit, otherwise
append the entry. -/
def budgetWalk (limit : Nat) (excl : String → Bool) :
    Nat → List RawMessage → List ContextMessage
  | _, [] => []
  | budget, m :: rest =>
    if excl (contentOrEmpty m) then budgetWalk limit excl budget rest
    else
      let entry := entryOf m
      let newBudget := budget +
        (String.length (ContextMessage.author entry) +
         String.length (ContextMessage.content entry) + 2)
      if limit < newBudget then []
      else entry :: budgetWalk limit excl newBudget rest

/-- `_collect_history`, for a window already fetched from the channel
(newest first).  The running total starts at `len(base_prompt) + 1` and the
accepted list is reversed at the end (oldest first). -/
def collectHistory (b : Builder) (window : List RawMessage) (middle : String) :
    List ContextMessage :=
  match b with
  | Builder.mk (Settings.mk pfx msgLimit promptPre promptSuf) charLimit uid =>
    let basePrompt := promptPre ++ middle ++ promptSuf
    let hist := historyMessages uid pfx window
    let bots := botContents uid window
    let excl := isExcluded msgLimit hist bots
    List.reverse (budgetWalk charLimit excl (String.length basePrompt + 1) hist)

/-- `_gather_tool_results`, with a provider modelled as the function from the
inbound message to the sequence it returns. -/
def gatherToolResults {α : Type} (providers : List (α → List ToolResult))
    (msg : α) : List ToolResult :=
  if List.isEmpty providers then []
  else List.foldl (fun acc p => acc ++ p msg) [] providers

/-- `add_tool_provider`: append-only registration. -/
def addToolProvider {α : Type} (providers : List (α → List ToolResult))
    (p : α → List ToolResult) : List (α → List ToolResult) :=
  providers ++ [p]

/-- `build`: collect the history for the inbound message's channel window,
gather the tool results, and assemble the context. -/
def build {α : Type} (b : Builder) (providers : List (α → List ToolResult))
    (window : List RawMessage) (msg : α) (middle : String) : ConversationContext :=
  match b with
  | Builder.mk (Settings.mk pfx msgLimit promptPre promptSuf) charLimit uid =>
    ConversationContext.mk promptPre middle promptSuf
      (collectHistory (Builder.mk (Settings.mk pfx msgLimit promptPre promptSuf) charLimit uid) window middle)
      (gatherToolResults providers msg)

/-- `f"{entry.author}: {entry.content}"`. -/
def renderEntry (e : ContextMessage) : String :=
  ContextMessage.author e ++ ": " ++ ContextMessage.content e

/-- `f"[Tool:{result.name}] {result.content}"`. -/
def renderToolResult (r : ToolResult) : String :=
  "[Tool:" ++ ToolResult.name r ++ "] " ++ ToolResult.content r

/-- `prompt_prefix + middle_section + prompt_suffix`. -/
def basePromptOf (ctx : ConversationContext) : String :=
  ConversationContext.prompt_prefix ctx ++ ConversationContext.middle_section ctx ++
    ConversationContext.prompt_suffix ctx

/-- `ConversationContext.render_prompt`. -/
def renderPrompt (ctx : ConversationContext) : String :=
  let base := basePromptOf ctx
  let segments : List String :=
    (if List.isEmpty (ConversationContext.history ctx) then []
     else [joinWith BLOCK_SEPARATOR (List.map renderEntry (ConversationContext.history ctx))])
    ++
    (if List.isEmpty (ConversationContext.tool_results ctx) then []
     else [joinWith BLOCK_SEPARATOR (List.map renderToolResult (ConversationContext.tool_results ctx))])
  if List.isEmpty segments then base
  else base ++ BLOCK_SEPARATOR ++ joinWith BLOCK_SEPARATOR segments

/-! ### Helper lemmas about the budget walk -/

/-- `len(entry.author) + len(entry.content) + 2`, the amount the walk adds to
the running total per accepted entry. -/
def entryCost (e : ContextMessage) : Nat :=
  String.length (ContextMessage.author e) + String.length (ContextMessage.content e) + 2

lemma budgetWalk_nil (limit : Nat) (excl : String → Bool) (budget : Nat) :
    budgetWalk limit excl budget [] = [] := rfl

lemma budgetWalk_cons_excluded (limit : Nat) (excl : String → Bool) (budget : Nat)
    (m : RawMessage) (rest : List RawMessage) (hx : excl (contentOrEmpty m) = true) :
    budgetWalk limit excl budget (m :: rest) = budgetWalk limit excl budget rest := by
  simp [budgetWalk, hx]

lemma budgetWalk_cons_overflow (limit : Nat) (excl : String → Bool) (budget : Nat)
    (m : RawMessage) (rest : List RawMessage) (hx : excl (contentOrEmpty m) = false)
    (hb : limit < budget + entryCost (entryOf m)) :
    budgetWalk limit excl budget (m :: rest) = [] := by
  simp [budgetWalk, hx, entryCost] at hb ⊢
  omega

lemma budgetWalk_cons_fits (limit : Nat) (excl : String → Bool) (budget : Nat)
    (m : RawMessage) (rest : List RawMessage) (hx : excl (contentOrEmpty m) = false)
    (hb : budget + entryCost (entryOf m) ≤ limit) :
    budgetWalk limit excl budget (m :: rest) =
      entryOf m :: budgetWalk limit excl (budget + entryCost (entryOf m)) rest := by
  simp [budgetWalk, hx, entryCost] at hb ⊢
  omega

/-- The walk returns the images under `entryOf` of a subsequence of its
input, all of whose members are not excluded. -/
lemma budgetWalk_spec (limit : Nat) (excl : String → Bool) :
    ∀ (msgs : List RawMessage) (budget : Nat),
      ∃ sel : List RawMessage,
        List.Sublist sel msgs ∧
        budgetWalk limit excl budget msgs = List.map entryOf sel ∧
        ∀ m ∈ sel, excl (contentOrEmpty m) = false := by
  intro msgs
  induction msgs with
  | nil =>
    intro budget
    exact ⟨[], List.Sublist.refl _, rfl, by simp⟩
  | cons m rest ih =>
    intro budget
    by_cases hx : excl (contentOrEmpty m) = true
    · obtain ⟨sel, hsub, heq, hmem⟩ := ih budget
      exact ⟨sel, hsub.cons m, by rw [budgetWalk_cons_excluded limit excl budget m rest hx, heq], hmem⟩
    · have hx' : excl (contentOrEmpty m) = false := by simpa using hx
      by_cases hb : limit < budget + entryCost (entryOf m)
      · exact ⟨[], List.nil_sublist _,
          by rw [budgetWalk_cons_overflow limit excl budget m rest hx' hb]; rfl, by simp⟩
      · obtain ⟨sel, hsub, heq, hmem⟩ := ih (budget + entryCost (entryOf m))
        refine ⟨m :: sel, hsub.cons₂ m, ?_, ?_⟩
        · rw [budgetWalk_cons_fits limit excl budget m rest hx' (by omega), heq]
          rfl
        · intro x hxm
          rcases List.mem_cons.mp hxm with h | h
          · subst h; exact hx'
          · exact hmem x h

/-- If the walk accepted anything, the final running total (start value plus
the cost of every accepted entry) is still within the limit. -/
lemma budgetWalk_cost (limit : Nat) (excl : String → Bool) :
    ∀ (msgs : List RawMessage) (budget : Nat),
      budgetWalk limit excl budget msgs ≠ [] →
      budget + (List.map entryCost (budgetWalk limit excl budget msgs)).sum ≤ limit := by
  intro msgs
  induction msgs with
  | nil =>
    intro budget h
    exact absurd (budgetWalk_nil limit excl budget) h
  | cons m rest ih =>
    intro budget h
    by_cases hx : excl (contentOrEmpty m) = true
    · rw [budgetWalk_cons_excluded limit excl budget m rest hx] at h ⊢
      exact ih budget h
    · have hx' : excl (contentOrEmpty m) = false := by simpa using hx
      by_cases hb : limit < budget + entryCost (entryOf m)
      · rw [budgetWalk_cons_overflow limit excl budget m rest hx' hb] at h
        exact absurd rfl h
      · have hb' : budget + entryCost (entryOf m) ≤ limit := by omega
        rw [budgetWalk_cons_fits limit excl budget m rest hx' hb'] at h ⊢
        by_cases hr : budgetWalk limit excl (budget + entryCost (entryOf m)) rest = []
        · rw [hr]
          simpa using hb'
        · have := ih (budget + entryCost (entryOf m)) hr
          simp only [List.map_cons, List.sum_cons]
          omega

/-- If every candidate's content is excluded, the walk returns nothing. -/
lemma budgetWalk_all_excluded (limit : Nat) (excl : String → Bool) :
    ∀ (msgs : List RawMessage) (budget : Nat),
      (∀ m ∈ msgs, excl (contentOrEmpty m) = true) →
      budgetWalk limit excl budget msgs = [] := by
  intro msgs
  induction msgs with
  | nil => intro budget _; rfl
  | cons m rest ih =>
    intro budget h
    rw [budgetWalk_cons_excluded limit excl budget m rest (h m (List.mem_cons_self m rest))]
    exact ih budget fun x hx => h x (List.mem_cons_of_mem m hx)

/-! ### Helper lemmas about the repetition counts -/

/-- Number of bot contents containing `contentLower` followed by a line
break. -/
def matchCount (contentLower : String) (bots : List String) : Nat :=
  List.length (List.filter (fun b => lineMatch contentLower b) bots)

/-- Number of history messages whose content is exactly `c`. -/
def occCount (hist : List RawMessage) (c : String) : Nat :=
  List.length (List.filter (fun m => decide (contentOrEmpty m = c)) hist)

lemma bumpForBots_apply (key contentLower : String) :
    ∀ (bots : List String) (cs : String → Nat) (c : String),
      bumpForBots key contentLower bots cs c =
        cs c + (if c = key then matchCount contentLower bots else 0) := by
  intro bots
  induction bots with
  | nil =>
    intro cs c
    simp [bumpForBots, matchCount]
  | cons b t ih =>
    intro cs c
    by_cases hm : lineMatch contentLower b = true
    · have : bumpForBots key contentLower (b :: t) cs =
          bumpForBots key contentLower t (bumpKey key cs) := by
        simp [bumpForBots, hm]
      rw [this, ih (bumpKey key cs) c]
      have hmc : matchCount contentLower (b :: t) = matchCount contentLower t + 1 := by
        simp [matchCount, List.filter_cons, hm]
      rw [hmc]
      by_cases hc : c = key
      · simp [bumpKey, hc]
        omega
      · simp [bumpKey, hc]
    · have hm' : lineMatch contentLower b = false := by simpa using hm
      have : bumpForBots key contentLower (b :: t) cs = bumpForBots key contentLower t cs := by
        simp [bumpForBots, hm']
      rw [this, ih cs c]
      have hmc : matchCount contentLower (b :: t) = matchCount contentLower t := by
        simp [matchCount, List.filter_cons, hm']
      rw [hmc]

lemma botMessageCountsAux (bots : List String) (c : String) :
    ∀ (hist : List RawMessage) (cs : String → Nat),
      List.foldl (countsStep bots) cs hist c =
        cs c + (if String.length (lowerPy c) < 5 then 0
                else occCount hist c * matchCount (lowerPy c) bots) := by
  intro hist
  induction hist with
  | nil =>
    intro cs
    simp [occCount]
  | cons m t ih =>
    intro cs
    have hstep : List.foldl (countsStep bots) cs (m :: t) c =
        List.foldl (countsStep bots) (countsStep bots cs m) t c := rfl
    rw [hstep, ih (countsStep bots cs m)]
    by_cases hc : contentOrEmpty m = c
    · by_cases hshort : String.length (lowerPy c) < 5
      · have : countsStep bots cs m = cs := by
          simp [countsStep, hc, hshort]
        rw [this]
        simp [hshort]
      · have : countsStep bots cs m = bumpForBots (contentOrEmpty m) (lowerPy (contentOrEmpty m)) bots cs := by
          simp [countsStep, hc, hshort]
        rw [this, bumpForBots_apply, hc]
        have hocc : occCount (m :: t) c = occCount t c + 1 := by
          simp [occCount, List.filter_cons, hc]
        rw [hocc]
        simp [hshort]
        ring
    · have hocc : occCount (m :: t) c = occCount t c := by
        simp [occCount, List.filter_cons, hc]
      rw [hocc]
      by_cases hshortm : String.length (lowerPy (contentOrEmpty m)) < 5
      · have : countsStep bots cs m = cs := by
          simp [countsStep, hshortm]
        rw [this]
      · have : countsStep bots cs m = bumpForBots (contentOrEmpty m) (lowerPy (contentOrEmpty m)) bots cs := by
          simp [countsStep, hshortm]
        rw [this, bumpForBots_apply]
        have : ¬ (c = contentOrEmpty m) := fun h => hc h.symm
        simp [this]

/-- Closed form of the repetition counts: the count at `c` is the number of
history messages whose content is `c` times the number of bot contents
containing the lowercased `c` followed by a line break, and `0` when `c` is
shorter than 5 characters. -/
lemma botMessageCounts_closed (hist : List RawMessage) (bots : List String) (c : String) :
    botMessageCounts hist bots c =
      if String.length (lowerPy c) < 5 then 0
      else occCount hist c * matchCount (lowerPy c) bots := by
  have := botMessageCountsAux bots c hist (fun _ => 0)
  simpa [botMessageCounts] using this

/-! ### Claim theorems -/

lemma collectHistory_eq (pfx : String) (msgLimit : Int) (promptPre promptSuf : String)
    (charLimit : Nat) (uid : Option Nat) (window : List RawMessage) (middle : String) :
    collectHistory (Builder.mk (Settings.mk pfx msgLimit promptPre promptSuf) charLimit uid)
        window middle =
      List.reverse
        (budgetWalk charLimit
          (isExcluded msgLimit (historyMessages uid pfx window) (botContents uid window))
          (String.length (promptPre ++ middle ++ promptSuf) + 1)
          (historyMessages uid pfx window)) := rfl

/-- **C1.** For every history window (given newest first) and every builder
configuration, the curated history of `_collect_history` is the entry-image
of a subsequence of the reversed window — hence chronologically ordered
oldest-first, the reverse of the newest-first acceptance order — and every
selected message satisfies: when a bot user id is bound its author's id
differs from it, when none is bound its author does not carry the `bot`
flag, and its original raw content does not start with the configured
command prefix. -/
theorem collect_history_invariants (pfx : String) (msgLimit : Int)
    (promptPre promptSuf : String) (charLimit : Nat) (uid : Option Nat)
    (window : List RawMessage) (middle : String) :
    ∃ msgs : List RawMessage,
      List.Sublist msgs (List.reverse window) ∧
      collectHistory (Builder.mk (Settings.mk pfx msgLimit promptPre promptSuf) charLimit uid)
          window middle = List.map entryOf msgs ∧
      ∀ m ∈ msgs,
        (∀ botId, uid = some botId → Author.id (RawMessage.author m) ≠ botId) ∧
        (uid = none → Author.bot (RawMessage.author m) = false) ∧
        startsWithPy (contentOrEmpty m) pfx = false := by
  obtain ⟨sel, hsub, heq, -⟩ :=
    budgetWalk_spec charLimit
      (isExcluded msgLimit (historyMessages uid pfx window) (botContents uid window))
      (historyMessages uid pfx window)
      (String.length (promptPre ++ middle ++ promptSuf) + 1)
  have hsubw : List.Sublist sel window :=
    List.Sublist.trans hsub (List.filter_sublist window)
  refine ⟨List.reverse sel, List.Sublist.reverse hsubw, ?_, ?_⟩
  · rw [collectHistory_eq, heq]
    exact (List.map_reverse entryOf sel).symm
  · intro m hm
    have hmsel : m ∈ sel := List.mem_reverse.mp hm
    have hmem : m ∈ historyMessages uid pfx window := hsub.subset hmsel
    have hkeep := (List.mem_filter.mp hmem).2
    simp only [keepHuman, Bool.and_eq_true, Bool.not_eq_true'] at hkeep
    refine ⟨?_, ?_, hkeep.2⟩
    · intro botId hbid
      have hfb := hkeep.1
      rw [hbid] at hfb
      simp [isFromBot] at hfb
      exact hfb
    · intro hn
      have hfb := hkeep.1
      rw [hn] at hfb
      simpa [isFromBot] using hfb

/-- Witness for C1 at a concrete window. -/
theorem collect_history_invariants_witness :
    ∃ msgs : List RawMessage,
      List.Sublist msgs
        (List.reverse
          [RawMessage.mk (Author.mk "alice" 1 false) (some "hello there"),
           RawMessage.mk (Author.mk "sky" 9 true) (some "a bot line"),
           RawMessage.mk (Author.mk "bob" 2 false) (some "!react now")]) ∧
      collectHistory (Builder.mk (Settings.mk "!react" 2 "P" "S") 10000 (some 9))
          [RawMessage.mk (Author.mk "alice" 1 false) (some "hello there"),
           RawMessage.mk (Author.mk "sky" 9 true) (some "a bot line"),
           RawMessage.mk (Author.mk "bob" 2 false) (some "!react now")]
          "topic" = List.map entryOf msgs ∧
      ∀ m ∈ msgs,
        (∀ botId, (some 9 : Option Nat) = some botId → Author.id (RawMessage.author m) ≠ botId) ∧
        ((some 9 : Option Nat) = none → Author.bot (RawMessage.author m) = false) ∧
        startsWithPy (contentOrEmpty m) "!react" = false :=
  collect_history_invariants "!react" 2 "P" "S" 10000 (some 9)
    [RawMessage.mk (Author.mk "alice" 1 false) (some "hello there"),
     RawMessage.mk (Author.mk "sky" 9 true) (some "a bot line"),
     RawMessage.mk (Author.mk "bob" 2 false) (some "!react now")]
    "topic"

/-- **C2 (counterexample).** With an empty base prompt, command prefix `"!"`,
character limit 11 and two human messages `"xx"` by author `"a"`, both
messages are accepted (the walk's total reaches exactly 11), but the
history section actually serialized by `render_prompt` is
`"a: xx \n a: xx"` of length 13, which together with the empty base prompt
exceeds the configured budget of 11. -/
theorem serialized_budget_counterexample :
    ¬ (String.length
        (joinWith BLOCK_SEPARATOR
          (List.map renderEntry
            (collectHistory (Builder.mk (Settings.mk "!" 2 "" "") 11 none)
              [RawMessage.mk (Author.mk "a" 1 false) (some "xx"),
               RawMessage.mk (Author.mk "a" 1 false) (some "xx")] ""))) +
        String.length ("" ++ "" ++ "") ≤ 11) := by decide

/-- **C2 (amended).** Whenever `_collect_history` returns a non-empty
curated history, the walk's own accounting total — the base prompt length
plus 1, plus `len(author) + len(content) + 2` for every curated entry —
never exceeds `history_character_limit`.  (The actually serialized history
section costs `": "` plus a `" \n "` separator per entry, 3 more characters
per entry beyond the first than the walk charges, so the serialized size
itself can exceed the budget, as the counterexample shows.) -/
theorem collect_history_budget_accounting (pfx : String) (msgLimit : Int)
    (promptPre promptSuf : String) (charLimit : Nat) (uid : Option Nat)
    (window : List RawMessage) (middle : String)
    (h : collectHistory (Builder.mk (Settings.mk pfx msgLimit promptPre promptSuf) charLimit uid)
        window middle ≠ []) :
    String.length (promptPre ++ middle ++ promptSuf) + 1 +
      (List.map entryCost
        (collectHistory (Builder.mk (Settings.mk pfx msgLimit promptPre promptSuf) charLimit uid)
          window middle)).sum ≤ charLimit := by
  rw [collectHistory_eq] at h ⊢
  rw [List.map_reverse, List.sum_reverse]
  have hne : budgetWalk charLimit
      (isExcluded msgLimit (historyMessages uid pfx window) (botContents uid window))
      (String.length (promptPre ++ middle ++ promptSuf) + 1)
      (historyMessages uid pfx window) ≠ [] := by
    intro hnil
    rw [hnil] at h
    exact h rfl
  have := budgetWalk_cost charLimit
    (isExcluded msgLimit (historyMessages uid pfx window) (botContents uid window))
    (historyMessages uid pfx window)
    (String.length (promptPre ++ middle ++ promptSuf) + 1) hne
  omega

/-- Witness for C2 (amended) at a concrete non-empty history. -/
theorem collect_history_budget_accounting_witness :
    String.length ("" ++ "" ++ "") + 1 +
      (List.map entryCost
        (collectHistory (Builder.mk (Settings.mk "!" 2 "" "") 11 none)
          [RawMessage.mk (Author.mk "a" 1 false) (some "xx"),
           RawMessage.mk (Author.mk "a" 1 false) (some "xx")] "")).sum ≤ 11 :=
  collect_history_budget_accounting "!" 2 "" "" 11 none
    [RawMessage.mk (Author.mk "a" 1 false) (some "xx"),
     RawMessage.mk (Author.mk "a" 1 false) (some "xx")] "" (by decide)

/-- **C3 (counterexample).** In a window holding two human messages with the
same 5-character content `"hello"` and one bot message containing
`"hello\n"`, the repetition mapping assigns `"hello"` the count 2 — each of
the two human occurrences contributes once per matching bot message —
although only one bot-authored content string contains the content as a
line, so the count is not the number of matching bot strings. -/
theorem repetition_count_counterexample :
    botMessageCounts
        (historyMessages none "!"
          [RawMessage.mk (Author.mk "a" 1 false) (some "hello"),
           RawMessage.mk (Author.mk "b" 2 false) (some "hello"),
           RawMessage.mk (Author.mk "sky" 9 true) (some "hello\nok")])
        (botContents none
          [RawMessage.mk (Author.mk "a" 1 false) (some "hello"),
           RawMessage.mk (Author.mk "b" 2 false) (some "hello"),
           RawMessage.mk (Author.mk "sky" 9 true) (some "hello\nok")])
        "hello" = 2 ∧
    matchCount (lowerPy "hello")
        (botContents none
          [RawMessage.mk (Author.mk "a" 1 false) (some "hello"),
           RawMessage.mk (Author.mk "b" 2 false) (some "hello"),
           RawMessage.mk (Author.mk "sky" 9 true) (some "hello\nok")]) = 1 ∧
    ¬ (String.length (lowerPy "hello") < 5) := by decide

/-- **C3 (amended).** For every window, the repetition mapping assigns to a
content string of length at least 5 the count
(number of curated-candidate human messages in the window carrying exactly
that content) × (number of bot-authored content strings in the window that
contain the lowercased content immediately followed by a line break); each
matching bot message therefore contributes once per human occurrence of
the content, not once overall.  Contents shorter than 5 characters keep
count 0. -/
theorem repetition_count_closed_form (uid : Option Nat) (pfx : String)
    (window : List RawMessage) (c : String) :
    botMessageCounts (historyMessages uid pfx window) (botContents uid window) c =
      if String.length (lowerPy c) < 5 then 0
      else occCount (historyMessages uid pfx window) c *
        matchCount (lowerPy c) (botContents uid window) :=
  botMessageCounts_closed (historyMessages uid pfx window) (botContents uid window) c

/-- **C4 (counterexample).** `bot_message_limit` is an unconstrained integer
configuration value; with the configured `message_limit` 0, the 2-character
human content `"hi"` keeps repetition count 0 and yet `0 >= 0` puts it into
the ignored set, so it is excluded and the curated history is empty even
though there is no bot content at all and the budget (1000) is ample. -/
theorem short_content_excluded_counterexample :
    collectHistory (Builder.mk (Settings.mk "!" 0 "" "") 1000 none)
        [RawMessage.mk (Author.mk "a" 1 false) (some "hi")] "" = [] ∧
    String.length "hi" < 5 ∧
    botMessageCounts
        (historyMessages none "!" [RawMessage.mk (Author.mk "a" 1 false) (some "hi")])
        (botContents none [RawMessage.mk (Author.mk "a" 1 false) (some "hi")]) "hi" = 0 ∧
    isExcluded 0
        (historyMessages none "!" [RawMessage.mk (Author.mk "a" 1 false) (some "hi")])
        (botContents none [RawMessage.mk (Author.mk "a" 1 false) (some "hi")]) "hi" = true := by
  decide

/-- **C4 (amended).** For every window and every positive configured
`message_limit`, a human content string shorter than 5 characters keeps
repetition count 0 and is never excluded by the repetition guard, no matter
how many bot-authored messages contain it.  (For `message_limit <= 0` the
count-0 exemption does not protect it, as the counterexample shows.) -/
theorem short_content_never_excluded (msgLimit : Int) (hist : List RawMessage)
    (bots : List String) (c : String)
    (hshort : String.length (lowerPy c) < 5) :
    botMessageCounts hist bots c = 0 ∧
    (1 ≤ msgLimit → isExcluded msgLimit hist bots c = false) := by
  have h0 : botMessageCounts hist bots c = 0 := by
    rw [botMessageCounts_closed]
    simp [hshort]
  refine ⟨h0, ?_⟩
  intro hpos
  simp only [isExcluded, h0]
  rw [decide_eq_false_iff_not]
  intro hle
  simp at hle
  omega

/-- Witness for C4 (amended): `"hi"` with limit 1 against a bot content that
contains it as a line. -/
theorem short_content_never_excluded_witness :
    botMessageCounts [RawMessage.mk (Author.mk "a" 1 false) (some "hi")] ["hi\nhi\n"] "hi" = 0 ∧
    isExcluded 1 [RawMessage.mk (Author.mk "a" 1 false) (some "hi")] ["hi\nhi\n"] "hi" = false :=
  And.intro
    (short_content_never_excluded 1 [RawMessage.mk (Author.mk "a" 1 false) (some "hi")]
      ["hi\nhi\n"] "hi" (by decide)).1
    ((short_content_never_excluded 1 [RawMessage.mk (Author.mk "a" 1 false) (some "hi")]
      ["hi\nhi\n"] "hi" (by decide)).2 (by decide))

/-- **C5.** The budget comparison is strict: during the walk, a non-excluded
candidate whose `len(author) + len(content) + 2` brings the running total
to exactly the limit is accepted — the walk appends its entry and continues
from the new total. -/
theorem budget_walk_exact_fit (charLimit budget : Nat) (excl : String → Bool)
    (m : RawMessage) (rest : List RawMessage)
    (hx : excl (contentOrEmpty m) = false)
    (hfit : budget + entryCost (entryOf m) = charLimit) :
    budgetWalk charLimit excl budget (m :: rest) =
      entryOf m :: budgetWalk charLimit excl charLimit rest := by
  have h := budgetWalk_cons_fits charLimit excl budget m rest hx (by omega)
  rw [h, hfit]

/-- Witness for C5: cost 5 on top of a running total of 1 hits the limit 6
exactly and the entry is accepted. -/
theorem budget_walk_exact_fit_witness :
    budgetWalk 6 (fun _ => false) 1
        [RawMessage.mk (Author.mk "a" 1 false) (some "xx")] =
      entryOf (RawMessage.mk (Author.mk "a" 1 false) (some "xx")) ::
        budgetWalk 6 (fun _ => false) 6 [] :=
  budget_walk_exact_fit 6 1 (fun _ => false)
    (RawMessage.mk (Author.mk "a" 1 false) (some "xx")) [] rfl (by decide)

/-- **C6.** Hard truncation: as soon as one non-excluded candidate's
addition pushes the running total beyond the limit, the walk returns with
nothing further — no later (older) candidate is considered, whatever the
rest of the window holds. -/
theorem budget_walk_overflow_truncates (charLimit budget : Nat) (excl : String → Bool)
    (m : RawMessage) (rest : List RawMessage)
    (hx : excl (contentOrEmpty m) = false)
    (hover : charLimit < budget + entryCost (entryOf m)) :
    budgetWalk charLimit excl budget (m :: rest) = [] :=
  budgetWalk_cons_overflow charLimit excl budget m rest hx hover

/-- Witness for C6: the overflowing candidate (cost 5 against limit 4) cuts
the walk although the older 1-character message alone would fit. -/
theorem budget_walk_overflow_truncates_witness :
    budgetWalk 4 (fun _ => false) 1
        [RawMessage.mk (Author.mk "a" 1 false) (some "xx"),
         RawMessage.mk (Author.mk "b" 2 false) (some "")] = [] :=
  budget_walk_overflow_truncates 4 1 (fun _ => false)
    (RawMessage.mk (Author.mk "a" 1 false) (some "xx"))
    [RawMessage.mk (Author.mk "b" 2 false) (some "")] rfl (by decide)

lemma joinWith_single (sep x : String) : joinWith sep [x] = x := rfl

lemma joinWith_pair (sep x y : String) : joinWith sep [x, y] = x ++ sep ++ y := rfl

/-- **C7.** `render_prompt` returns exactly
`prompt_prefix + middle_section + prompt_suffix` when history and tool
results are both empty; otherwise that base followed by `" \n "` and the
non-empty blocks joined by `" \n "` — history entries rendered
`"author: content"`, tool entries `"[Tool:name] content"` — with the
history block before the tool block when both are present. -/
theorem render_prompt_cases (ctx : ConversationContext) :
    (ConversationContext.history ctx = [] → ConversationContext.tool_results ctx = [] →
        renderPrompt ctx = basePromptOf ctx) ∧
    (ConversationContext.history ctx ≠ [] → ConversationContext.tool_results ctx = [] →
        renderPrompt ctx = basePromptOf ctx ++ BLOCK_SEPARATOR ++
          joinWith BLOCK_SEPARATOR (List.map renderEntry (ConversationContext.history ctx))) ∧
    (ConversationContext.history ctx = [] → ConversationContext.tool_results ctx ≠ [] →
        renderPrompt ctx = basePromptOf ctx ++ BLOCK_SEPARATOR ++
          joinWith BLOCK_SEPARATOR (List.map renderToolResult (ConversationContext.tool_results ctx))) ∧
    (ConversationContext.history ctx ≠ [] → ConversationContext.tool_results ctx ≠ [] →
        renderPrompt ctx = basePromptOf ctx ++ BLOCK_SEPARATOR ++
          joinWith BLOCK_SEPARATOR (List.map renderEntry (ConversationContext.history ctx)) ++
          BLOCK_SEPARATOR ++
          joinWith BLOCK_SEPARATOR (List.map renderToolResult (ConversationContext.tool_results ctx))) := by
  refine ⟨?_, ?_, ?_, ?_⟩ <;> intro h1 h2
  · simp [renderPrompt, h1, h2]
  · simp [renderPrompt, h1, h2, joinWith_single, String.append_assoc]
  · simp [renderPrompt, h1, h2, joinWith_single, String.append_assoc]
  · simp [renderPrompt, h1, h2, joinWith_pair, String.append_assoc]

/-- Witness for C7 with one history entry and one tool result. -/
theorem render_prompt_cases_witness :
    renderPrompt (ConversationContext.mk "P" "M" "S"
        [ContextMessage.mk "alice" "hi"] [ToolResult.mk "search" "x"]) =
      basePromptOf (ConversationContext.mk "P" "M" "S"
        [ContextMessage.mk "alice" "hi"] [ToolResult.mk "search" "x"]) ++
      BLOCK_SEPARATOR ++
      joinWith BLOCK_SEPARATOR (List.map renderEntry [ContextMessage.mk "alice" "hi"]) ++
      BLOCK_SEPARATOR ++
      joinWith BLOCK_SEPARATOR (List.map renderToolResult [ToolResult.mk "search" "x"]) :=
  (render_prompt_cases (ConversationContext.mk "P" "M" "S"
      [ContextMessage.mk "alice" "hi"] [ToolResult.mk "search" "x"])).2.2.2
    (by decide) (by decide)

lemma foldl_append_flatten {α : Type} (msg : α) :
    ∀ (providers : List (α → List ToolResult)) (acc : List ToolResult),
      List.foldl (fun a p => a ++ p msg) acc providers =
        acc ++ List.flatten (List.map (fun p => p msg) providers) := by
  intro providers
  induction providers with
  | nil => intro acc; simp
  | cons p t ih =>
    intro acc
    simp only [List.foldl_cons, List.map_cons, List.flatten_cons]
    rw [ih (acc ++ p msg)]
    simp

/-- **C8.** `_gather_tool_results` returns the concatenation of each
provider's output for the message, in registration order, each provider's
own order preserved; an empty provider list yields the empty sequence
(the loop is skipped), and `add_tool_provider` appends at the end of the
registration order, so a newly registered provider's results come last. -/
theorem gather_tool_results_spec {α : Type} (providers : List (α → List ToolResult))
    (p : α → List ToolResult) (msg : α) :
    gatherToolResults ([] : List (α → List ToolResult)) msg = [] ∧
    gatherToolResults providers msg = List.flatten (List.map (fun q => q msg) providers) ∧
    gatherToolResults (addToolProvider providers p) msg =
      gatherToolResults providers msg ++ p msg := by
  have hgen : ∀ (ps : List (α → List ToolResult)),
      gatherToolResults ps msg = List.flatten (List.map (fun q => q msg) ps) := by
    intro ps
    cases ps with
    | nil => rfl
    | cons q t =>
      unfold gatherToolResults
      rw [if_neg (by simp)]
      exact foldl_append_flatten msg (q :: t) []
  refine ⟨hgen [], hgen providers, ?_⟩
  rw [hgen (addToolProvider providers p), hgen providers]
  simp [addToolProvider]

/-- **C9.** Curation and assembly are total by construction — `build` and
`_collect_history` are total functions producing a `ConversationContext`
for every input, message contents may be missing (`None` is read as `""`).
When every message of the window is excluded (bot-authored, a command
starting with the prefix, or ignored by the repetition guard), the curated
history is empty rather than an error, and `build` still returns the fully
assembled context; the empty window is the vacuous instance of the
hypothesis, so an empty window also yields an empty curated history. -/
theorem build_totality_all_excluded {α : Type} (pfx : String) (msgLimit : Int)
    (promptPre promptSuf : String) (charLimit : Nat) (uid : Option Nat)
    (providers : List (α → List ToolResult)) (window : List RawMessage)
    (msg : α) (middle : String)
    (h : ∀ m ∈ window,
        isFromBot uid m = true ∨
        startsWithPy (contentOrEmpty m) pfx = true ∨
        isExcluded msgLimit (historyMessages uid pfx window) (botContents uid window)
          (contentOrEmpty m) = true) :
    collectHistory (Builder.mk (Settings.mk pfx msgLimit promptPre promptSuf) charLimit uid)
        window middle = [] ∧
    build (Builder.mk (Settings.mk pfx msgLimit promptPre promptSuf) charLimit uid)
        providers window msg middle =
      ConversationContext.mk promptPre middle promptSuf []
        (gatherToolResults providers msg) := by
  have hall : ∀ m ∈ historyMessages uid pfx window,
      isExcluded msgLimit (historyMessages uid pfx window) (botContents uid window)
        (contentOrEmpty m) = true := by
    intro m hm
    have hmw := (List.mem_filter.mp hm).1
    have hkeep := (List.mem_filter.mp hm).2
    simp only [keepHuman, Bool.and_eq_true, Bool.not_eq_true'] at hkeep
    rcases h m hmw with hb | hs | he
    · rw [hkeep.1] at hb
      cases hb
    · rw [hkeep.2] at hs
      cases hs
    · exact he
  have hwalk := budgetWalk_all_excluded charLimit
    (isExcluded msgLimit (historyMessages uid pfx window) (botContents uid window))
    (historyMessages uid pfx window)
    (String.length (promptPre ++ middle ++ promptSuf) + 1) hall
  have hcoll : collectHistory
      (Builder.mk (Settings.mk pfx msgLimit promptPre promptSuf) charLimit uid)
      window middle = [] := by
    rw [collectHistory_eq, hwalk]
    rfl
  refine ⟨hcoll, ?_⟩
  have hbuild : build (Builder.mk (Settings.mk pfx msgLimit promptPre promptSuf) charLimit uid)
      providers window msg middle =
    ConversationContext.mk promptPre middle promptSuf
      (collectHistory (Builder.mk (Settings.mk pfx msgLimit promptPre promptSuf) charLimit uid)
        window middle)
      (gatherToolResults providers msg) := rfl
  rw [hbuild, hcoll]

/-- Witness for C9: a window holding one bot message, one command message
and one bot message with missing content — every message is bot-authored
or a command — yields an empty curated history and a fully assembled
context. -/
theorem build_totality_all_excluded_witness :
    collectHistory (Builder.mk (Settings.mk "!" 2 "P" "S") 10000 none)
        [RawMessage.mk (Author.mk "sky" 9 true) (some "a bot line"),
         RawMessage.mk (Author.mk "bob" 2 false) (some "!react now"),
         RawMessage.mk (Author.mk "sky" 9 true) none] "topic" = [] ∧
    build (Builder.mk (Settings.mk "!" 2 "P" "S") 10000 none)
        ([] : List (Unit → List ToolResult))
        [RawMessage.mk (Author.mk "sky" 9 true) (some "a bot line"),
         RawMessage.mk (Author.mk "bob" 2 false) (some "!react now"),
         RawMessage.mk (Author.mk "sky" 9 true) none] () "topic" =
      ConversationContext.mk "P" "topic" "S" []
        (gatherToolResults ([] : List (Unit → List ToolResult)) ()) :=
  build_totality_all_excluded "!" 2 "P" "S" 10000 none
    ([] : List (Unit → List ToolResult))
    [RawMessage.mk (Author.mk "sky" 9 true) (some "a bot line"),
     RawMessage.mk (Author.mk "bob" 2 false) (some "!react now"),
     RawMessage.mk (Author.mk "sky" 9 true) none] () "topic" (by decide)

lemma data_empty_string : String.data "" = [] := by decide

lemma startsWithPy_empty_pfx (c : String) : startsWithPy c "" = true := by
  unfold startsWithPy
  rw [data_empty_string]
  exact List.isPrefixOf_nil_left

/-- **C10.** When the configured command prefix is the empty string, every
non-bot message's content starts with it, so the curated history is empty
for every window; and a human message with empty (or missing, read as `""`)
content is dropped by the command filter exactly when the configured prefix
is empty. -/
theorem empty_prefix_drops_all :
    (∀ (msgLimit : Int) (promptPre promptSuf : String) (charLimit : Nat)
        (uid : Option Nat) (window : List RawMessage) (middle : String),
        collectHistory (Builder.mk (Settings.mk "" msgLimit promptPre promptSuf) charLimit uid)
          window middle = []) ∧
    (∀ (uid : Option Nat) (p : String) (m : RawMessage),
        contentOrEmpty m = "" → isFromBot uid m = false →
        (keepHuman uid p m = false ↔ p = "")) := by
  constructor
  · intro msgLimit promptPre promptSuf charLimit uid window middle
    have hfil : historyMessages uid "" window = [] := by
      simp only [historyMessages]
      rw [List.filter_eq_nil_iff]
      intro m _
      simp [keepHuman, startsWithPy_empty_pfx]
    rw [collectHistory_eq, hfil]
    rfl
  · intro uid p m hc hbot
    by_cases hp : p = ""
    · subst hp
      simp [keepHuman, hbot, startsWithPy_empty_pfx]
    · have hsw : startsWithPy (contentOrEmpty m) p = false := by
        rw [hc]
        unfold startsWithPy
        rw [data_empty_string]
        rcases hd : String.data p with _ | ⟨a, t⟩
        · exact absurd (String.ext hd) hp
        · rfl
      simp [keepHuman, hbot, hsw, hp]

/-- Witness for C10: with the empty prefix a plain human message is still
dropped, and with prefix `"!"` an empty-content human message is kept by
the command filter. -/
theorem empty_prefix_drops_all_witness :
    collectHistory (Builder.mk (Settings.mk "" 2 "P" "S") 10000 none)
        [RawMessage.mk (Author.mk "alice" 1 false) (some "hello there")] "topic" = [] ∧
    ¬ (keepHuman none "!" (RawMessage.mk (Author.mk "alice" 1 false) none) = false) :=
  And.intro
    (empty_prefix_drops_all.1 2 "P" "S" 10000 none
      [RawMessage.mk (Author.mk "alice" 1 false) (some "hello there")] "topic")
    (fun h => by
      have := (empty_prefix_drops_all.2 none "!"
        (RawMessage.mk (Author.mk "alice" 1 false) none) rfl rfl).mp h
      exact absurd this (by decide))
